import Mathlib

/-!
# Verification of the prime-observer network probe collector and transform

A shallow embedding of `src/bin/collector.py` and `src/bin/transform_latest.py`,
with theorems settling the frozen claims about the spec.

Modelling conventions:
* Python strings are `List Char`; `str.splitlines`, `str.strip`, `str.join` and
  `str.replace` are modelled character-exactly over their ASCII/Latin-1/BMP
  boundary sets (`isLineBreakChar`, `pyIsSpace`).
* Python floats are modelled as exact rationals `ℚ`; `round(x, n)` is modelled
  as round-half-to-even at `10^(-n)` (`pyRound`).
* An external process invocation (`subprocess.run` with a timeout) is a
  `RunOutcome`: either the completed process (exit code and stdout) or a
  timeout; a timeout makes `subprocess.run` raise `TimeoutExpired`, which the
  embedding renders as `Except.error`.
* Filesystem state is explicit where a claim needs it (dataset-file
  initialization, the snapshot's temp-file-then-rename publication).
-/

/-! ## Python string primitives -/

/-- The line-boundary characters of Python `str.splitlines`:
`\n`, `\r` (with `\r\n` counting as a single boundary), `\v`, `\f`,
`\x1c`, `\x1d`, `\x1e`, `\x85`, `\u2028`, `\u2029`. -/
def isLineBreakChar (c : Char) : Bool :=
  c = '\n' || c = '\r' || c = '\x0b' || c = '\x0c' ||
  c = '\x1c' || c = '\x1d' || c = '\x1e' || c = '\x85' ||
  c = '\u2028' || c = '\u2029'

/-- The whitespace characters stripped by Python `str.strip()`
(the ASCII/Latin-1 members of `str.isspace`). -/
def pyIsSpace (c : Char) : Bool :=
  c = ' ' || c = '\t' || c = '\n' || c = '\r' || c = '\x0b' || c = '\x0c' ||
  c = '\x1c' || c = '\x1d' || c = '\x1e' || c = '\x1f' || c = '\x85' || c = '\xa0'

/-- Worker for `splitlines`: `cur` is the (reversed) current line. A line
boundary emits the current line; `\r` immediately followed by `\n` is one
boundary; a trailing boundary does not produce a final empty line (Python
`"a\n".splitlines() = ["a"]`). -/
def splitlinesGo (cur : List Char) : List Char → List (List Char)
  | [] => [cur.reverse]
  | c :: rest =>
    if isLineBreakChar c then
      let rest2 := if c = '\r' ∧ rest.head? = some '\n' then rest.tail else rest
      cur.reverse :: (if rest2.isEmpty then [] else splitlinesGo [] rest2)
    else
      splitlinesGo (c :: cur) rest
termination_by l => l.length
decreasing_by
  all_goals simp_wf
  all_goals (split <;> simp [List.length_tail])
  all_goals omega

/-- Python `str.splitlines()`: `"".splitlines() = []`. -/
def splitlines (s : List Char) : List (List Char) :=
  if s.isEmpty then [] else splitlinesGo [] s

/-- Python `str.strip()`: drop leading and trailing whitespace. -/
def pyStrip (l : List Char) : List Char :=
  ((l.dropWhile pyIsSpace).reverse.dropWhile pyIsSpace).reverse

/-- Python `sep.join(pieces)`. -/
def joinSep (sep : List Char) : List (List Char) → List Char
  | [] => []
  | x :: xs =>
    match xs with
    | [] => x
    | _ :: _ => x ++ sep ++ joinSep sep xs

/-- Python `s.replace("\t", " ")`: each tab becomes one space. -/
def replaceTab (l : List Char) : List Char :=
  l.map (fun c => if c = '\t' then ' ' else c)

/-- The write-time single-line delimiter `" | "` used by both scripts. -/
def sepBar : List Char := " | ".data

/-- Model of `transform_latest.sanitize_field`: `""` for `None`, otherwise
`" | ".join(str(s).splitlines()).replace("\t", " ").strip()`. -/
def sanitize_field : Option (List Char) → List Char
  | none => []
  | some s => pyStrip (replaceTab (joinSep sepBar (splitlines s)))

/-! ## Python numeric primitives -/

/-- The integer nearest to `s`, halves to even: the core of Python `round`. -/
def pyRoundInt (s : ℚ) : ℤ :=
  if s - ⌊s⌋ < 1/2 then ⌊s⌋
  else if 1/2 < s - ⌊s⌋ then ⌊s⌋ + 1
  else if ⌊s⌋ % 2 = 0 then ⌊s⌋ else ⌊s⌋ + 1

/-- Python `round(x, n)` modelled on exact rationals: round half to even at
`10^(-n)`. -/
def pyRound (x : ℚ) (n : ℕ) : ℚ :=
  (pyRoundInt (x * 10 ^ n) : ℚ) / 10 ^ n

/-- Python `int(x)`: truncation toward zero. -/
def pyInt (x : ℚ) : ℤ :=
  if 0 ≤ x then ⌊x⌋ else ⌈x⌉

/-- Value of a run of decimal digits, most significant first. -/
def digitsToNat (ds : List Char) : ℕ :=
  ds.foldl (fun a c => a * 10 + (c.toNat - 48)) 0

/-- Python `float(g)` for a group `g` captured by the regex class `[\d\.]+`:
defined exactly when `g` holds at least one digit and at most one dot
(`float("...")` and `float("1.2.3")` raise `ValueError`, `float("5.")`,
`float(".5")` succeed). -/
def parseFloatGroup (g : List Char) : Option ℚ :=
  let ip := g.takeWhile (fun c => c ≠ '.')
  let rest := g.dropWhile (fun c => c ≠ '.')
  match rest with
  | [] => if ip.isEmpty then none else some (digitsToNat ip)
  | _ :: fp =>
    if fp.any (fun c => c = '.') then none
    else if ip.isEmpty ∧ fp.isEmpty then none
    else some ((digitsToNat ip : ℚ) + (digitsToNat fp : ℚ) / 10 ^ fp.length)

/-! ## The latency-sample regex `time=([\d\.]+)\s*ms` (collector.PING_RE) -/

/-- Does the regex match starting exactly at the head of `l`? If so, return
the captured `[\d\.]+` group. The group is greedy; since a shorter group would
have to be followed (after optional whitespace) by `ms`, whose first character
is neither a digit, a dot, nor whitespace, the maximal digit-or-dot run is the
unique candidate. -/
def matchTimeAt : List Char → Option (List Char)
  | 't' :: 'i' :: 'm' :: 'e' :: '=' :: rest =>
    let grp := rest.takeWhile (fun c => c.isDigit || c = '.')
    if grp.isEmpty then none
    else
      let after := (rest.dropWhile (fun c => c.isDigit || c = '.')).dropWhile pyIsSpace
      match after with
      | 'm' :: 's' :: _ => some grp
      | _ => none
  | _ => none

/-- Python `PING_RE.search(line)`: the leftmost position where the pattern
matches, returning the captured group. -/
def searchTime : List Char → Option (List Char)
  | [] => none
  | c :: cs =>
    match matchTimeAt (c :: cs) with
    | some g => some g
    | none => searchTime cs

/-- Worker for `parse_ping_times_ms`: one pass over the lines; a line whose
regex match captures a group that `float()` rejects raises `ValueError`
(`Except.error`), otherwise matched values accumulate in line order. -/
def parsePingGo : List (List Char) → Except Unit (List ℚ)
  | [] => .ok []
  | line :: rest =>
    match searchTime line with
    | none => parsePingGo rest
    | some g =>
      match parseFloatGroup g with
      | none => .error ()
      | some t => (parsePingGo rest).map (fun ts => t :: ts)

/-- Model of `collector.parse_ping_times_ms`: extract a latency sample from every line
of the ping stdout matching `time=([\d\.]+)\s*ms`; non-matching lines are
ignored. -/
def parse_ping_times_ms (stdout : List Char) : Except Unit (List ℚ) :=
  parsePingGo (splitlines stdout)

/-! ## The statistics engine -/

/-- Python `sorted` on rationals: a stable ascending sort. Modelled by
insertion sort, which agrees with every ascending sort of rationals
(a sorted permutation of a list of elements of a linear order is unique). -/
def pySorted (values : List ℚ) : List ℚ :=
  values.insertionSort (fun a b => a ≤ b)

/-- Model of `collector.quantile`: `None` on the empty list, else sort ascending,
real index `(n-1)*q`, `lo = int(idx)`, `hi = min(lo+1, n-1)`, and linear
interpolation by the fractional part (out-of-range indices, which Python
would raise on, are totalized with default `0`; the claims only use
`0 ≤ q ≤ 1`, where all indices are in range). -/
def quantile (values : List ℚ) (q : ℚ) : Option ℚ :=
  if values.isEmpty then none
  else
    let v := pySorted values
    let n := v.length
    let idx : ℚ := ((n : ℚ) - 1) * q
    let lo : ℤ := pyInt idx
    let hi : ℤ := min (lo + 1) ((n : ℤ) - 1)
    if hi = lo then some (v.getD lo.toNat 0)
    else
      let frac : ℚ := idx - lo
      some (v.getD lo.toNat 0 * (1 - frac) + v.getD hi.toNat 0 * frac)

/-! ## External process invocations (collector.run) -/

/-- The observable result of a completed external process under
`subprocess.run(..., capture_output=True, text=True)`. -/
structure RunResult where
  returncode : ℤ
  stdout : String
deriving DecidableEq

/-- The outcome of `collector.run(cmd, timeout)`: either the process completed
(with any exit code — `check` is not passed, so a nonzero exit does not
raise), or the hard timeout fired, in which case `subprocess.run` raises
`subprocess.TimeoutExpired`. -/
inductive RunOutcome where
  | ok (r : RunResult)
  | timedOut
deriving DecidableEq

/-! ## The latency adapter (collector.ping_target) -/

/-- A latency-derived value as written into the record. `statistics.pstdev`
is an (in general irrational) square root, so it is carried symbolically:
`round3pstdev xs` stands for `round(statistics.pstdev(xs), 3)`, the rounded
population (divide-by-`n`) standard deviation of `xs`. -/
inductive RVal where
  | num (q : ℚ)
  | round3pstdev (samples : List ℚ)
deriving DecidableEq

/-- The population variance (mean squared deviation, divide by `n`) whose
square root `statistics.pstdev` computes. -/
def pvariance (xs : List ℚ) : ℚ :=
  (xs.map (fun x => (x - xs.sum / xs.length) ^ 2)).sum / xs.length

/-- The per-target latency fields assembled by `collector.ping_target`
(empty CSV cells are `none`). -/
structure PingStats where
  sent : ℕ
  received : ℕ
  loss_pct : ℚ
  avg_ms : Option ℚ
  p50_ms : Option ℚ
  p95_ms : Option ℚ
  max_ms : Option ℚ
  jitter_ms : Option RVal
deriving DecidableEq

/-- Lines 85–104 of `collector.py`: the statistics computed from the extracted
samples and the requested count. `jitter` is `statistics.pstdev(times)` when
`len(times) >= 2` and `0.0` otherwise; since it is never `None`, the record
field is always the rounded value, never the empty cell. -/
def ping_stats (times : List ℚ) (count : ℕ) : PingStats :=
  let sent := count
  let received := times.length
  let loss_pct : ℚ := if sent ≠ 0 then 100 * ((sent : ℚ) - (received : ℚ)) / (sent : ℚ) else 0
  { sent := sent
    received := received
    loss_pct := pyRound loss_pct 2
    avg_ms := if times.isEmpty then none else some (pyRound (times.sum / times.length) 3)
    p50_ms := if times.isEmpty then none else (quantile times (1/2)).map (fun x => pyRound x 3)
    p95_ms := if times.isEmpty then none else (quantile times (19/20)).map (fun x => pyRound x 3)
    max_ms := match times with
      | [] => none
      | x :: xs => some (pyRound (xs.foldl max x) 3)
    jitter_ms := some (if 2 ≤ times.length then RVal.round3pstdev times else RVal.num (pyRound 0 3)) }

/-- Model of `collector.ping_target`: run the ping under a hard 8-second timeout, then
extract samples and compute statistics. A timeout raises out of the adapter
(`Except.error`), as does a `float()` failure on a matched group. -/
def ping_target (count : ℕ) (outcome : RunOutcome) : Except Unit PingStats :=
  match outcome with
  | .timedOut => .error ()
  | .ok r =>
    match parse_ping_times_ms r.stdout.data with
    | .error e => .error e
    | .ok times => .ok (ping_stats times count)

/-! ## The route adapter (collector.traceroute_snip) -/

/-- Model of `collector.traceroute_snip`: run traceroute under a 90-second timeout and
flatten the first 12 stdout lines with `" | "`, stripped. A timeout raises
out of the adapter. -/
def traceroute_snip (outcome : RunOutcome) : Except Unit (List Char) :=
  match outcome with
  | .timedOut => .error ()
  | .ok r => .ok (pyStrip (joinSep sepBar ((splitlines r.stdout.data).take 12)))

/-! ## The bandwidth adapter (collector.run_ookla_speedtest) -/

/-- The three numeric fields the adapter extracts from the speedtest JSON:
`download.bandwidth`, `upload.bandwidth`, `ping.latency`, each absent
(`data.get(...) -> None`) or a number. -/
structure ParsedPayload where
  down_b : Option ℚ
  up_b : Option ℚ
  ping_ms : Option ℚ
deriving DecidableEq

/-- The environment of one `run_ookla_speedtest` call. `toolAvailable` is
`shutil.which("speedtest") is not None`; `outcome` is the process invocation
under the 180-second timeout; `parsed` is the result of the `try` block's
`json.loads` plus `.get` chain plus `float` conversions on the stdout —
`none` when any of those raises (caught by `except Exception`), `some p`
when the block reaches the result dict with the extracted optional fields.
The JSON decoding itself is external input to the model. -/
structure SpeedtestEnv where
  toolAvailable : Bool
  outcome : RunOutcome
  parsed : Option ParsedPayload

/-- One bandwidth-probe result dict (`None` subfields are `none`). -/
structure SpeedtestResult where
  down_mbps : Option ℚ
  up_mbps : Option ℚ
  ping_ms : Option ℚ
  raw_json : List Char
deriving DecidableEq

/-- Bytes/sec to megabits/sec: `(x * 8.0) / 1_000_000.0`. -/
def bw_to_mbps (x : ℚ) : ℚ := x * 8 / 1000000

/-- Model of `collector.run_ookla_speedtest`: `None` when the tool is absent, the exit
code is nonzero, or the parse block raises; a timeout raises `TimeoutExpired`
out of the adapter (the `try` only guards the parsing). Each subfield of a
returned result is populated exactly when the corresponding payload field is
present. -/
def run_ookla_speedtest (env : SpeedtestEnv) : Except Unit (Option SpeedtestResult) :=
  if !env.toolAvailable then .ok none
  else
    match env.outcome with
    | .timedOut => .error ()
    | .ok r =>
      if r.returncode ≠ 0 then .ok none
      else
        match env.parsed with
        | none => .ok none
        | some p => .ok (some
            { down_mbps := p.down_b.map (fun x => pyRound (bw_to_mbps x) 2)
              up_mbps := p.up_b.map (fun x => pyRound (bw_to_mbps x) 2)
              ping_ms := p.ping_ms.map (fun x => pyRound x 2)
              raw_json := pyStrip r.stdout.data })

/-! ## Dataset-file initialization (collector.ensure_csv) -/

/-- Model of `collector.FIELDNAMES`: the fixed 16-column header. -/
def FIELDNAMES : List String :=
  ["ts", "phase_label", "host", "sent", "received", "loss_pct",
   "avg_ms", "p50_ms", "p95_ms", "max_ms", "jitter_ms", "traceroute_snip",
   "speedtest_down_mbps", "speedtest_up_mbps", "speedtest_ping_ms",
   "speedtest_raw_json"]

/-- Model of `collector.ensure_csv` acting on the dataset file's state (`none` when
the file does not exist, `some rows` when it does): only a missing file is
created, with exactly the header row. -/
def ensure_csv : Option (List (List String)) → Option (List (List String))
  | some content => some content
  | none => some [FIELDNAMES]

/-! ## The window transform (transform_latest) -/

/-- Model of `transform_latest.WINDOW_HOURS`. -/
def WINDOW_HOURS : ℕ := 24

/-- The trailing window in seconds (`dt.timedelta(hours=WINDOW_HOURS)`;
instants are modelled as integer epoch seconds, matching the scripts'
second-precision timestamps). -/
def windowSeconds : ℤ := (WINDOW_HOURS : ℤ) * 3600

/-- The outcome of `transform_latest.parse_ts` on a row's `ts` cell plus the
timezone handling of lines 49–55: `invalid` when `fromisoformat` raises (the
row is skipped), `aware t` for a timezone-aware timestamp denoting instant
`t` (epoch seconds, i.e. already converted via `astimezone(utc)`), `naive t`
for a timezone-less timestamp whose clock reading, interpreted in the
reference zone (UTC, via `replace(tzinfo=utc)`), denotes instant `t`. -/
inductive TSParse where
  | invalid
  | aware (t : ℤ)
  | naive (t : ℤ)
deriving DecidableEq

/-- One CSV row as the transform sees it: its parsed timestamp, the two
sanitized cells (outer `Option`: is the column present in the header;
inner `Option`: `csv.DictReader` yields `None` for cells missing from a
short row), and the remaining cells, untouched by the transform. -/
structure Row where
  ts_parse : TSParse
  tr_snip : Option (Option (List Char))
  raw_json : Option (Option (List Char))
  rest : List String

/-- Lines 49–56 of `transform_latest.py`: keep a row exactly when its
timestamp parsed and the instant is not strictly before `cutoff`. -/
def keepRow (cutoff : ℤ) (row : Row) : Bool :=
  match row.ts_parse with
  | .invalid => false
  | .aware t => !(t < cutoff)
  | .naive t => !(t < cutoff)

/-- Lines 58–62: sanitize the two risky fields when their columns exist. -/
def sanitizeRow (r : Row) : Row :=
  { r with
    tr_snip := r.tr_snip.map (fun v => some (sanitize_field v))
    raw_json := r.raw_json.map (fun v => some (sanitize_field v)) }

/-- The row loop of `transform_latest.main` (lines 44–64): stream the rows,
drop unparsable or out-of-window ones, sanitize the kept ones, preserving
order. `now` is the transform time, `cutoff = now - WINDOW`. -/
def transform_rows (now : ℤ) : List Row → List Row
  | [] => []
  | r :: rs =>
    if keepRow (now - windowSeconds) r
    then sanitizeRow r :: transform_rows now rs
    else transform_rows now rs

/-! ## Snapshot publication (transform_latest.main, lines 66–73) -/

/-- The two paths the publication step touches: `viz/latest.csv` and
`viz/latest.csv.tmp`. -/
inductive SnapPath where
  | outFile
  | tmpFile
deriving DecidableEq

/-- Filesystem state restricted to the two paths: `none` means the path does
not exist. -/
def SnapFS := SnapPath → Option (List Char)

/-- The two filesystem operations of the publication step, each atomic at the
model's granularity: writing the temporary file (`tmp.open("w")` + writes +
close), and `tmp.replace(OUT)` — POSIX `rename`, which atomically installs
the temp file's complete content at the destination and removes the source. -/
inductive SnapOp where
  | writeTmp (content : List Char)
  | renameTmpOut

/-- Effect of one operation on the filesystem. -/
def snapApply (fs : SnapFS) : SnapOp → SnapFS
  | .writeTmp c => fun p =>
    match p with
    | .tmpFile => some c
    | .outFile => fs .outFile
  | .renameTmpOut => fun p =>
    match p with
    | .outFile => fs .tmpFile
    | .tmpFile => none

/-- Run a sequence of operations. -/
def snapRun (fs : SnapFS) : List SnapOp → SnapFS
  | [] => fs
  | op :: ops => snapRun (snapApply fs op) ops

/-- The operation sequence of lines 66–73: write the complete snapshot to the
temporary file, then rename it over `OUT`. -/
def publishOps (content : List Char) : List SnapOp :=
  [.writeTmp content, .renameTmpOut]

/-! ## The spec's description of the percentile function -/

/-- Modelled from the spec's words (§4.1), for comparison with the source's
`quantile`: "sort samples ascending, compute a real-valued index = (n−1)×q,
interpolate between the two bracketing order statistics by the fractional
part" — the bracketing order statistics being those at `⌊idx⌋` and `⌈idx⌉`.
"Degenerates to the single value when n = 1" follows (idx = 0). -/
def quantile_spec (values : List ℚ) (q : ℚ) : ℚ :=
  let v := pySorted values
  let idx : ℚ := ((v.length : ℚ) - 1) * q
  let frac : ℚ := idx - ⌊idx⌋
  v.getD (⌊idx⌋).toNat 0 * (1 - frac) + v.getD (⌈idx⌉).toNat 0 * frac

/-! # Theorems -/

/-- C7: Dataset-file initialization is idempotent: for every path, calling it
when the file already exists leaves the file's contents unchanged, and calling
it twice on a fresh path produces a file containing exactly one header row and
zero data rows. -/
theorem C7_ensure_csv_idempotent :
    (∀ content, ensure_csv (some content) = some content) ∧
    ensure_csv (ensure_csv none) = some [FIELDNAMES] ∧
    (∀ fs, ensure_csv (ensure_csv fs) = ensure_csv fs) := by
  refine ⟨fun _ => rfl, rfl, fun fs => ?_⟩
  cases fs <;> rfl

/-- C9: The snapshot is published via temporary-file-then-atomic-rename: the
state reached by interrupting after the temp-file write but before the rename
leaves the previously published snapshot untouched; at every operation
boundary a reader of the snapshot path sees either the old content or the
complete new content; the full sequence installs the complete new content. -/
theorem C9_snapshot_atomic_publish :
    (∀ fs : SnapFS, ∀ content,
      snapRun fs [SnapOp.writeTmp content] SnapPath.outFile = fs SnapPath.outFile) ∧
    (∀ fs : SnapFS, ∀ content,
      snapRun fs (publishOps content) SnapPath.outFile = some content) ∧
    (∀ fs : SnapFS, snapRun fs [] SnapPath.outFile = fs SnapPath.outFile) :=
  ⟨fun _ _ => rfl, fun _ _ => rfl, fun _ => rfl⟩

/-- Helper: on a nonempty sample list and `q ∈ [0,1]`, the source's `quantile`
computes exactly the spec's interpolation between the bracketing order
statistics. -/
theorem quantile_eq_quantile_spec (values : List ℚ) (q : ℚ)
    (hne : values ≠ []) (h0 : 0 ≤ q) (h1 : q ≤ 1) :
    quantile values q = some (quantile_spec values q) := by
  unfold quantile quantile_spec
  have hve : values.isEmpty = false := by simp [List.isEmpty_iff, hne]
  rw [hve]
  simp only [Bool.false_eq_true, if_false]
  have hvlen : 1 ≤ (pySorted values).length := by
    have hl : (pySorted values).length = values.length :=
      (List.perm_insertionSort _ values).length_eq
    rw [hl]
    cases values with
    | nil => exact absurd rfl hne
    | cons a l => simp
  set v := pySorted values with hv
  set n := v.length with hn
  set idx : ℚ := ((n : ℚ) - 1) * q with hidx
  have hn1 : (0:ℚ) ≤ (n:ℚ) - 1 := by
    have : (1:ℚ) ≤ (n:ℚ) := by exact_mod_cast hvlen
    linarith
  have hidx0 : 0 ≤ idx := mul_nonneg hn1 h0
  have hidxle : idx ≤ (n:ℚ) - 1 := by
    calc idx ≤ ((n:ℚ) - 1) * 1 := by
          exact mul_le_mul_of_nonneg_left h1 hn1
      _ = (n:ℚ) - 1 := mul_one _
  have hpyInt : pyInt idx = ⌊idx⌋ := by simp [pyInt, hidx0]
  rw [hpyInt]
  have hlo0 : 0 ≤ ⌊idx⌋ := Int.floor_nonneg.mpr hidx0
  have hloflr : (⌊idx⌋ : ℚ) ≤ idx := Int.floor_le idx
  have hloleZ : ⌊idx⌋ ≤ (n:ℤ) - 1 := by
    have : (⌊idx⌋ : ℚ) ≤ ((n:ℤ) - 1 : ℤ) := by push_cast; linarith
    exact_mod_cast this
  by_cases hhi : min (⌊idx⌋ + 1) ((n:ℤ) - 1) = ⌊idx⌋
  · -- hi = lo: forces lo = n - 1 and an integral index, so frac = 0
    have hmin : (n:ℤ) - 1 ≤ ⌊idx⌋ := by
      rcases le_total (⌊idx⌋ + 1) ((n:ℤ) - 1) with h | h
      · rw [min_eq_left h] at hhi; omega
      · rw [min_eq_right h] at hhi; omega
    have hloeq : ⌊idx⌋ = (n:ℤ) - 1 := le_antisymm hloleZ hmin
    have hidxeq : idx = (⌊idx⌋ : ℚ) := by
      have : idx ≤ (⌊idx⌋ : ℚ) := by rw [hloeq]; push_cast; linarith
      linarith
    have hceil : ⌈idx⌉ = ⌊idx⌋ := by rw [hidxeq]; simp
    rw [hhi]
    rw [hceil, ← hidxeq]
    ring_nf
    simp
  · -- hi = lo + 1 ≤ n - 1
    have hlt : ⌊idx⌋ < (n:ℤ) - 1 := by
      rcases lt_or_le (⌊idx⌋) ((n:ℤ) - 1) with h | h
      · exact h
      · exfalso; apply hhi
        rw [min_eq_right (by omega : (n:ℤ) - 1 ≤ ⌊idx⌋ + 1)]
        omega
    have hmin : min (⌊idx⌋ + 1) ((n:ℤ) - 1) = ⌊idx⌋ + 1 := min_eq_left (by omega)
    rw [hmin]
    rw [if_neg (by omega)]
    by_cases hfr : idx = (⌊idx⌋ : ℚ)
    · have hceil : ⌈idx⌉ = ⌊idx⌋ := by rw [hfr]; simp
      rw [hceil, ← hfr]
      rw [hfr]
      ring_nf
    · have hflt : (⌊idx⌋ : ℚ) < idx := lt_of_le_of_ne hloflr (fun h => hfr h.symm)
      have hceil : ⌈idx⌉ = ⌊idx⌋ + 1 := by
        have h1c : ⌈idx⌉ ≤ ⌊idx⌋ + 1 := by
          rw [Int.ceil_le]; push_cast
          linarith [Int.lt_floor_add_one idx]
        have h2c : ⌊idx⌋ + 1 ≤ ⌈idx⌉ := by
          have : ⌊idx⌋ < ⌈idx⌉ := Int.lt_ceil.mpr hflt
          omega
        omega
      rw [hceil]

/-- C6: for every non-empty sample list and `q ∈ [0,1]`, the percentile
function sorts the samples ascending, computes the real index `(n−1)·q`, and
linearly interpolates between the two bracketing order statistics by the
fractional part (the spec-side `quantile_spec`); it returns the single value
when `n = 1`; and it returns 20 on `[10, 20, 30]` and 15 on `[10, 20]` at
`q = 0.5`. -/
theorem C6_quantile_interpolates (values : List ℚ) (q : ℚ) (x : ℚ)
    (hne : values ≠ []) (h0 : 0 ≤ q) (h1 : q ≤ 1) :
    quantile values q = some (quantile_spec values q) ∧
    quantile [x] q = some x ∧
    quantile [10, 20, 30] (1/2) = some 20 ∧
    quantile [10, 20] (1/2) = some 15 := by
  refine ⟨quantile_eq_quantile_spec values q hne h0 h1, ?_, ?_, ?_⟩
  · have h := quantile_eq_quantile_spec [x] q (by simp) h0 h1
    rw [h]
    norm_num [quantile_spec, pySorted, List.insertionSort, List.orderedInsert]
  · norm_num [quantile, pySorted, pyInt, List.insertionSort, List.orderedInsert]
  · norm_num [quantile, pySorted, pyInt, List.insertionSort, List.orderedInsert]

/-- Witness for C6 at concrete inputs. -/
theorem C6_quantile_interpolates_witness :
    quantile [10, 20, 30] (1/2) = some (quantile_spec [10, 20, 30] (1/2)) ∧
    quantile [7] (1/2) = some 7 :=
  ⟨(C6_quantile_interpolates [10, 20, 30] (1/2) 7 (by simp) (by norm_num) (by norm_num)).1,
   (C6_quantile_interpolates [10, 20, 30] (1/2) 7 (by simp) (by norm_num) (by norm_num)).2.1⟩

/-- Helper: the transform's row loop is a filter by the window predicate
followed by sanitization, in source order. -/
theorem transform_rows_eq_filter_map (now : ℤ) (rows : List Row) :
    transform_rows now rows =
      (rows.filter (keepRow (now - windowSeconds))).map sanitizeRow := by
  induction rows with
  | nil => rfl
  | cons r rs ih =>
    by_cases h : keepRow (now - windowSeconds) r
    · simp [transform_rows, List.filter_cons, h, ih]
    · simp [transform_rows, List.filter_cons, h, ih]

/-- C5: with the 24-hour window, a row appears in the snapshot iff its
timestamp parses and does not fall strictly before `now − 24h` (naive
timestamps interpreted in the reference zone); rows at `now`, `now−23h`,
`now−25h` yield exactly the first two; a malformed timestamp drops only that
row, never aborting the transform. -/
theorem C5_window_filter_24h (now : ℤ) (rows : List Row)
    (l1 l2 : List Row) (f1 f2 : Option (Option (List Char))) (f3 : List String) :
    transform_rows now rows =
      (rows.filter (fun r =>
        match r.ts_parse with
        | .invalid => false
        | .aware t => decide (now - 24 * 3600 ≤ t)
        | .naive t => decide (now - 24 * 3600 ≤ t))).map sanitizeRow ∧
    transform_rows now
      [⟨.aware now, f1, f2, f3⟩,
       ⟨.aware (now - 23 * 3600), f1, f2, f3⟩,
       ⟨.aware (now - 25 * 3600), f1, f2, f3⟩] =
      [sanitizeRow ⟨.aware now, f1, f2, f3⟩,
       sanitizeRow ⟨.aware (now - 23 * 3600), f1, f2, f3⟩] ∧
    transform_rows now (l1 ++ ⟨.invalid, f1, f2, f3⟩ :: l2) =
      transform_rows now (l1 ++ l2) := by
  refine ⟨?_, ?_, ?_⟩
  · rw [transform_rows_eq_filter_map]
    congr 1
    apply List.filter_congr
    intro r _
    cases h : r.ts_parse with
    | invalid => simp [keepRow, h]
    | aware t =>
      simp only [keepRow, h, windowSeconds, WINDOW_HOURS]
      simp only [← decide_not, decide_eq_decide]
      omega
    | naive t =>
      simp only [keepRow, h, windowSeconds, WINDOW_HOURS]
      simp only [← decide_not, decide_eq_decide]
      omega
  · simp [transform_rows, keepRow, windowSeconds, WINDOW_HOURS]
  · induction l1 with
    | nil =>
      show transform_rows now (Row.mk .invalid f1 f2 f3 :: l2) = _
      simp [transform_rows, keepRow]
    | cons r rs ih =>
      simp only [List.cons_append, transform_rows, List.append_eq]
      rw [ih]

/-! ## Character-level facts about the sanitizers -/

/-- Every character of every piece produced by `splitlinesGo` is a
non-line-break character, provided the accumulator holds none. -/
theorem splitlinesGo_no_break : ∀ (n : ℕ) (cur l : List Char), l.length ≤ n →
    (∀ c ∈ cur, isLineBreakChar c = false) →
    ∀ p ∈ splitlinesGo cur l, ∀ c ∈ p, isLineBreakChar c = false := by
  intro n
  induction n with
  | zero =>
    intro cur l hl hcur p hp c hc
    have hnil : l = [] := List.length_eq_zero.mp (Nat.le_zero.mp hl)
    subst hnil
    rw [splitlinesGo] at hp
    simp only [List.mem_singleton] at hp
    subst hp
    exact hcur c (List.mem_reverse.mp hc)
  | succ n ih =>
    intro cur l hl hcur p hp c hc
    match l, hl, hp with
    | [], hl, hp =>
      rw [splitlinesGo] at hp
      simp only [List.mem_singleton] at hp
      subst hp
      exact hcur c (List.mem_reverse.mp hc)
    | d :: rest, hl, hp =>
      rw [splitlinesGo] at hp
      by_cases hbr : isLineBreakChar d
      · rw [if_pos hbr] at hp
        by_cases hcr : d = '\x0d' ∧ rest.head? = some '\n'
        · rw [if_pos hcr] at hp
          rcases List.mem_cons.mp hp with rfl | hp
          · exact hcur c (List.mem_reverse.mp hc)
          · split at hp
            · simp at hp
            · refine ih [] rest.tail ?_ (by simp) p hp c hc
              simp only [List.length_cons] at hl
              simp only [List.length_tail]
              omega
        · rw [if_neg hcr] at hp
          rcases List.mem_cons.mp hp with rfl | hp
          · exact hcur c (List.mem_reverse.mp hc)
          · split at hp
            · simp at hp
            · refine ih [] rest ?_ (by simp) p hp c hc
              simp only [List.length_cons] at hl
              omega
      · rw [if_neg hbr] at hp
        refine ih (d :: cur) rest ?_ ?_ p hp c hc
        · simp only [List.length_cons] at hl
          omega
        · intro e he
          rcases List.mem_cons.mp he with rfl | he
          · simpa using hbr
          · exact hcur e he

/-- No piece of `splitlines s` contains a line-break character. -/
theorem splitlines_no_break (s : List Char) :
    ∀ p ∈ splitlines s, ∀ c ∈ p, isLineBreakChar c = false := by
  intro p hp
  unfold splitlines at hp
  split at hp
  · simp at hp
  · exact splitlinesGo_no_break s.length [] s le_rfl (by simp) p hp

/-- A string without line-break characters is a single line. -/
theorem splitlinesGo_eq_of_no_break :
    ∀ (cur l : List Char), (∀ c ∈ l, isLineBreakChar c = false) →
      splitlinesGo cur l = [cur.reverse ++ l] := by
  intro cur l
  induction l generalizing cur with
  | nil => intro _; rw [splitlinesGo]; simp
  | cons d rest ih =>
    intro hl
    rw [splitlinesGo]
    rw [if_neg (by simpa using hl d (List.mem_cons_self d rest))]
    rw [ih (d :: cur) (fun c hc => hl c (List.mem_cons_of_mem d hc))]
    simp

/-- Fact that `splitlines` of a nonempty break-free string is that single line. -/
theorem splitlines_eq_of_no_break (s : List Char) (hne : s ≠ [])
    (hs : ∀ c ∈ s, isLineBreakChar c = false) : splitlines s = [s] := by
  unfold splitlines
  rw [if_neg (by simpa [List.isEmpty_iff] using hne)]
  simpa using splitlinesGo_eq_of_no_break [] s hs

/-- A character of a join comes from the separator or from a piece. -/
theorem mem_joinSep : ∀ (sep : List Char) (ps : List (List Char)) (c : Char),
    c ∈ joinSep sep ps → c ∈ sep ∨ ∃ p ∈ ps, c ∈ p := by
  intro sep ps
  induction ps with
  | nil => intro c hc; rw [joinSep.eq_def] at hc; simp at hc
  | cons x xs ih =>
    intro c hc
    rw [joinSep.eq_def] at hc
    match xs, hc, ih with
    | [], hc, ih =>
      exact Or.inr ⟨x, by simp, hc⟩
    | y :: ys, hc, ih =>
      rcases List.mem_append.mp hc with hc | hc
      · rcases List.mem_append.mp hc with hc | hc
        · exact Or.inr ⟨x, by simp, hc⟩
        · exact Or.inl hc
      · rcases ih c hc with h | ⟨p, hp, hcp⟩
        · exact Or.inl h
        · exact Or.inr ⟨p, List.mem_cons_of_mem x hp, hcp⟩

/-- Joining a single piece is the identity. -/
theorem joinSep_singleton (sep : List Char) (p : List Char) :
    joinSep sep [p] = p := rfl

/-- Idempotence of `dropWhile`. -/
theorem dropWhile_dropWhile (p : Char → Bool) :
    ∀ l : List Char, (l.dropWhile p).dropWhile p = l.dropWhile p := by
  intro l
  induction l with
  | nil => rfl
  | cons d rest ih =>
    rw [List.dropWhile_cons]
    by_cases h : p d
    · simpa [h] using ih
    · simp [List.dropWhile_cons, h]

/-- Fact that `dropWhile` only removes a front segment: a nonempty result keeps the
last element. -/
theorem getLast?_dropWhile (p : Char → Bool) :
    ∀ l : List Char, l.dropWhile p ≠ [] → (l.dropWhile p).getLast? = l.getLast? := by
  intro l
  induction l with
  | nil => intro h; simp at h
  | cons d rest ih =>
    intro h
    rw [List.dropWhile_cons] at h ⊢
    by_cases hp : p d
    · rw [if_pos hp] at h ⊢
      rw [ih h]
      have hrest : rest ≠ [] := by
        intro he; subst he; simp at h
      match rest, hrest with
      | e :: es, _ => rw [List.getLast?_cons_cons]
    · rw [if_neg hp]

/-- The head surviving a `dropWhile` does not satisfy the predicate. -/
theorem head?_dropWhile_false (p : Char → Bool) :
    ∀ (l : List Char) (c : Char), (l.dropWhile p).head? = some c → p c = false := by
  intro l
  induction l with
  | nil => intro c h; simp at h
  | cons d rest ih =>
    intro c h
    rw [List.dropWhile_cons] at h
    by_cases hp : p d
    · rw [if_pos hp] at h
      exact ih c h
    · rw [if_neg hp] at h
      simp only [List.head?_cons, Option.some.injEq] at h
      subst h
      simpa using hp

/-- A list whose head fails the predicate is unchanged by `dropWhile`. -/
theorem dropWhile_eq_self_of_head (p : Char → Bool) (l : List Char)
    (h : ∀ c, l.head? = some c → p c = false) : l.dropWhile p = l := by
  cases l with
  | nil => rfl
  | cons d rest =>
    rw [List.dropWhile_cons, if_neg]
    simp [h d rfl]

/-- Membership in a stripped list implies membership in the original. -/
theorem mem_pyStrip (l : List Char) (c : Char) (hc : c ∈ pyStrip l) : c ∈ l := by
  unfold pyStrip at hc
  have h1 := List.mem_reverse.mp hc
  have h2 := List.Sublist.mem h1 (List.dropWhile_sublist _)
  have h3 := List.mem_reverse.mp h2
  exact List.Sublist.mem h3 (List.dropWhile_sublist _)

/-- Idempotence of `strip`. -/
theorem pyStrip_idem (l : List Char) : pyStrip (pyStrip l) = pyStrip l := by
  by_cases hB : (l.dropWhile pyIsSpace).reverse.dropWhile pyIsSpace = []
  · unfold pyStrip
    rw [hB]
    simp
  · have hXhead : ∀ c,
        (((l.dropWhile pyIsSpace).reverse.dropWhile pyIsSpace).reverse).head? = some c →
        pyIsSpace c = false := by
      intro c hc
      rw [List.head?_reverse] at hc
      rw [getLast?_dropWhile pyIsSpace _ hB] at hc
      rw [List.getLast?_reverse] at hc
      exact head?_dropWhile_false pyIsSpace _ c hc
    conv_lhs => unfold pyStrip
    rw [show pyStrip l = ((l.dropWhile pyIsSpace).reverse.dropWhile pyIsSpace).reverse from rfl]
    rw [dropWhile_eq_self_of_head pyIsSpace _ hXhead]
    rw [List.reverse_reverse]
    rw [dropWhile_dropWhile]

/-- Replacing tabs by spaces preserves break-freeness. -/
theorem replaceTab_no_break (l : List Char) (hl : ∀ a ∈ l, isLineBreakChar a = false)
    (c : Char) (hc : c ∈ replaceTab l) : isLineBreakChar c = false := by
  rcases List.mem_map.mp hc with ⟨a, ha, rfl⟩
  by_cases h : a = '\t'
  · rw [if_pos h]; decide
  · rw [if_neg h]; exact hl a ha

/-- The output of the tab replacement holds no tab. -/
theorem replaceTab_no_tab (l : List Char) (c : Char) (hc : c ∈ replaceTab l) :
    c ≠ '\t' := by
  rcases List.mem_map.mp hc with ⟨a, ha, rfl⟩
  by_cases h : a = '\t'
  · rw [if_pos h]; decide
  · rw [if_neg h]; exact h

/-- A tab-free string is unchanged by the tab replacement. -/
theorem replaceTab_eq_self (l : List Char) (hl : ∀ a ∈ l, a ≠ '\t') :
    replaceTab l = l := by
  unfold replaceTab
  rw [List.map_congr_left (fun a ha => if_neg (hl a ha))]
  exact List.map_id l

/-- The transform-time sanitizer emits no line break and no tab. -/
theorem sanitize_field_chars (s : List Char) :
    ∀ c ∈ sanitize_field (some s), isLineBreakChar c = false ∧ c ≠ '\t' := by
  intro c hc
  have hc2 : c ∈ replaceTab (joinSep sepBar (splitlines s)) := mem_pyStrip _ c hc
  refine ⟨?_, replaceTab_no_tab _ c hc2⟩
  refine replaceTab_no_break _ ?_ c hc2
  intro a ha
  rcases mem_joinSep sepBar (splitlines s) a ha with h | ⟨p, hp, hap⟩
  · have h2 : a ∈ [' ', '|', ' '] := h
    simp only [List.mem_cons, List.mem_singleton] at h2
    rcases h2 with rfl | rfl | rfl | h2
    · decide
    · decide
    · decide
    · simp at h2
  · exact splitlines_no_break s p hp a hap

/-- C10: the transform-time sanitizer is idempotent: applying it to its own
output returns the output unchanged, so fields already sanitized at write
time are not further altered. -/
theorem C10_sanitize_field_idempotent (s : List Char) :
    sanitize_field (some (sanitize_field (some s))) = sanitize_field (some s) := by
  by_cases ho : sanitize_field (some s) = []
  · rw [ho]
    rfl
  · have hchars := sanitize_field_chars s
    conv_lhs =>
      rw [show sanitize_field (some (sanitize_field (some s))) =
          pyStrip (replaceTab (joinSep sepBar (splitlines (sanitize_field (some s)))))
        from rfl]
    rw [splitlines_eq_of_no_break _ ho (fun c hc => (hchars c hc).1)]
    rw [joinSep_singleton]
    rw [replaceTab_eq_self _ (fun c hc => (hchars c hc).2)]
    show pyStrip (pyStrip (replaceTab (joinSep sepBar (splitlines s)))) = _
    exact pyStrip_idem _

/-- C8 counterexample: the write-time sanitization (the traceroute join) does
not strip tab characters — a stdout containing a tab yields a route snippet
still containing that tab, contradicting "every tab character is stripped"
for the write-time side. -/
theorem C8_counterexample_write_time_tab :
    traceroute_snip (.ok ⟨0, "a\tb"⟩) = .ok ("a\tb".data) ∧
    '\t' ∈ ("a\tb".data) := by
  constructor
  · simp [traceroute_snip, splitlines, splitlinesGo, isLineBreakChar, sepBar,
      joinSep, pyStrip, pyIsSpace]
  · decide

/-- C8 (amended): both the write-time traceroute join and the transform-time
sanitizer produce single-line strings — every line break collapses into the
`" | "` delimiter and no line-break character survives; the transform-time
sanitizer additionally eliminates every tab; the write-time join leaves tabs
in place. -/
theorem C8_sanitizers_single_line :
    (∀ (r : RunResult) (out : List Char), traceroute_snip (.ok r) = .ok out →
       ∀ c ∈ out, isLineBreakChar c = false) ∧
    (∀ s : List Char, ∀ c ∈ sanitize_field (some s),
       isLineBreakChar c = false ∧ c ≠ '\t') ∧
    traceroute_snip (.ok ⟨0, "a\nb"⟩) = .ok ("a | b".data) ∧
    sanitize_field (some "a\nb".data) = "a | b".data := by
  refine ⟨?_, sanitize_field_chars, ?_, ?_⟩
  · intro r out hout c hc
    have hout2 : out = pyStrip (joinSep sepBar ((splitlines r.stdout.data).take 12)) := by
      simpa [traceroute_snip] using hout.symm
    subst hout2
    have hc2 := mem_pyStrip _ c hc
    rcases mem_joinSep _ _ c hc2 with h | ⟨p, hp, hcp⟩
    · have h2 : c ∈ [' ', '|', ' '] := h
      simp only [List.mem_cons, List.mem_singleton] at h2
      rcases h2 with rfl | rfl | rfl | h2
      · decide
      · decide
      · decide
      · simp at h2
    · exact splitlines_no_break r.stdout.data p
        (List.Sublist.mem hp (List.take_sublist 12 _)) c hcp
  · simp [traceroute_snip, splitlines, splitlinesGo, isLineBreakChar, sepBar,
      joinSep, pyStrip, pyIsSpace]
  · simp [sanitize_field, splitlines, splitlinesGo, isLineBreakChar, sepBar,
      joinSep, pyStrip, pyIsSpace, replaceTab]

/-- Witness for C8 at concrete inputs: the flattened snippet `"a | b"` has no
line break, and the sanitized `"x\ty"` contains `'y'`, break-free and
tab-free. -/
theorem C8_sanitizers_single_line_witness :
    isLineBreakChar ' ' = false ∧
    (isLineBreakChar 'y' = false ∧ 'y' ≠ '\t') :=
  ⟨C8_sanitizers_single_line.1 ⟨0, "a\nb"⟩ ("a | b".data)
      C8_sanitizers_single_line.2.2.1 ' ' (by decide),
   C8_sanitizers_single_line.2.1 ("x\ty".data) 'y'
      (by simp [sanitize_field, splitlines, splitlinesGo, isLineBreakChar, sepBar,
        joinSep, pyStrip, pyIsSpace, replaceTab])⟩

/-! ## Bounds on the rounding -/

/-- Fact that `round(0.0, n) = 0.0`. -/
theorem pyRound_zero (n : ℕ) : pyRound 0 n = 0 := by
  simp [pyRound, pyRoundInt]

/-- Rounding a nonnegative value is nonnegative. -/
theorem pyRoundInt_nonneg (s : ℚ) (hs : 0 ≤ s) : 0 ≤ pyRoundInt s := by
  unfold pyRoundInt
  have hf : 0 ≤ ⌊s⌋ := Int.floor_nonneg.mpr hs
  split
  · exact hf
  · split
    · omega
    · split <;> omega

/-- Rounding never crosses an integer upper bound. -/
theorem pyRoundInt_le_of_le (s : ℚ) (M : ℤ) (h : s ≤ (M : ℚ)) : pyRoundInt s ≤ M := by
  unfold pyRoundInt
  have hf : ⌊s⌋ ≤ M := by
    have h2 := Int.floor_le_floor h
    rwa [Int.floor_intCast] at h2
  by_cases h1 : s - ⌊s⌋ < 1/2
  · rw [if_pos h1]
    exact hf
  · rw [if_neg h1]
    push_neg at h1
    have hlt : ⌊s⌋ < M := by
      have hq : (⌊s⌋ : ℚ) < (M : ℚ) := by linarith
      exact_mod_cast hq
    split
    · omega
    · split <;> omega

/-- Nonnegativity of the rounding of a nonnegative value. -/
theorem pyRound_nonneg (x : ℚ) (n : ℕ) (hx : 0 ≤ x) : 0 ≤ pyRound x n := by
  unfold pyRound
  have h10 : (0:ℚ) < 10 ^ n := by positivity
  have hk : (0:ℤ) ≤ pyRoundInt (x * 10 ^ n) :=
    pyRoundInt_nonneg _ (by positivity)
  exact div_nonneg (by exact_mod_cast hk) (le_of_lt h10)

/-- Upper bounds expressed on the scaled value are preserved by the rounding. -/
theorem pyRound_le_of_le (x : ℚ) (n : ℕ) (M : ℤ) (h : x * 10 ^ n ≤ (M : ℚ)) :
    pyRound x n ≤ (M : ℚ) / 10 ^ n := by
  unfold pyRound
  have h10 : (0:ℚ) < 10 ^ n := by positivity
  have hk : pyRoundInt (x * 10 ^ n) ≤ M := pyRoundInt_le_of_le _ M h
  have hkQ : (pyRoundInt (x * 10 ^ n) : ℚ) ≤ (M : ℚ) := by exact_mod_cast hk
  gcongr

/-- C1 counterexample: on a process timeout each adapter propagates the
`TimeoutExpired` exception out of the adapter call (there is no handler in
any adapter), aborting the collector invocation — refuting "the adapter
returns an empty/absent result ... and the collector invocation is never
aborted" for the timeout case. -/
theorem C1_counterexample_timeout_aborts :
    ping_target 10 RunOutcome.timedOut = Except.error () ∧
    traceroute_snip RunOutcome.timedOut = Except.error () ∧
    run_ookla_speedtest ⟨true, RunOutcome.timedOut, none⟩ = Except.error () :=
  ⟨rfl, rfl, rfl⟩

/-- C1 (amended): when the external process completes — any exit code, so in
particular a nonzero exit — each adapter returns a (possibly empty/absent)
result and no failure escapes (for the latency adapter, provided every
matched sample parses as a float); but on a process timeout the exception
propagates out of every adapter (for the bandwidth adapter, unless the tool
is absent, in which case the tool check short-circuits the invocation). -/
theorem C1_adapters_amended :
    (∀ (count : ℕ) (r : RunResult) (times : List ℚ),
        parse_ping_times_ms r.stdout.data = .ok times →
        ping_target count (.ok r) = .ok (ping_stats times count)) ∧
    (∀ r : RunResult, (traceroute_snip (.ok r)).isOk = true) ∧
    (∀ (env : SpeedtestEnv) (r : RunResult), env.outcome = .ok r →
        (run_ookla_speedtest env).isOk = true) ∧
    (∀ count : ℕ, ping_target count .timedOut = .error ()) ∧
    traceroute_snip .timedOut = .error () ∧
    (∀ (avail : Bool) (parsed : Option ParsedPayload),
        run_ookla_speedtest ⟨avail, .timedOut, parsed⟩ =
          if avail then .error () else .ok none) := by
  refine ⟨?_, ?_, ?_, fun _ => rfl, rfl, ?_⟩
  · intro count r times hparse
    simp [ping_target, hparse]
  · intro r
    rfl
  · intro env r hout
    rcases env with ⟨avail, outc, parsed⟩
    simp only at hout
    subst hout
    cases avail with
    | false => rfl
    | true =>
      rw [run_ookla_speedtest]
      simp only [Bool.not_true, Bool.false_eq_true, if_false]
      split
      · rfl
      · cases parsed <;> rfl
  · intro avail parsed
    cases avail <;> rfl

/-- Witness for C1 at concrete inputs: a completed empty-output ping and a
completed speedtest both return without raising. -/
theorem C1_adapters_amended_witness :
    ping_target 10 (.ok ⟨0, ""⟩) = .ok (ping_stats [] 10) ∧
    (run_ookla_speedtest ⟨true, .ok ⟨0, "\x7b\x7d"⟩, none⟩).isOk = true :=
  ⟨C1_adapters_amended.1 10 ⟨0, ""⟩ [] rfl,
   C1_adapters_amended.2.2.1 ⟨true, .ok ⟨0, "\x7b\x7d"⟩, none⟩ ⟨0, "\x7b\x7d"⟩ rfl⟩

/-- C2 counterexample: a completed ping with no matching reply line yields
`received = 0` with all latency fields empty but with `jitter_ms = 0.0`
(the code writes `round(0.0, 3)`, never the empty cell), refuting "jitter is
null/empty when there are zero samples" and "when received = 0 ... jitter
[is] null/empty". -/
theorem C2_counterexample_zero_samples_jitter_zero :
    ping_target 10 (.ok ⟨0, ""⟩) = .ok (ping_stats [] 10) ∧
    (ping_stats [] 10).received = 0 ∧
    (ping_stats [] 10).avg_ms = none ∧
    (ping_stats [] 10).jitter_ms = some (RVal.num 0) := by
  refine ⟨rfl, rfl, rfl, ?_⟩
  show some (if 2 ≤ ([] : List ℚ).length then RVal.round3pstdev [] else RVal.num (pyRound 0 3)) = _
  rw [if_neg (by simp)]
  rw [pyRound_zero]

/-- C2 (amended): jitter is the rounded population (divide-by-`n`) standard
deviation for `n ≥ 2` samples and exactly `0` — not null — for `n ≤ 1`
samples, including `n = 0`; when `received = 0` the latency-derived fields
avg/p50/p95/max are null but jitter is `0`. -/
theorem C2_jitter_amended (times : List ℚ) (count : ℕ) :
    (2 ≤ times.length →
      (ping_stats times count).jitter_ms = some (RVal.round3pstdev times)) ∧
    (times.length ≤ 1 →
      (ping_stats times count).jitter_ms = some (RVal.num 0)) ∧
    (times = [] →
      (ping_stats times count).avg_ms = none ∧
      (ping_stats times count).p50_ms = none ∧
      (ping_stats times count).p95_ms = none ∧
      (ping_stats times count).max_ms = none ∧
      (ping_stats times count).jitter_ms = some (RVal.num 0)) := by
  refine ⟨?_, ?_, ?_⟩
  · intro h
    show some (if 2 ≤ times.length then RVal.round3pstdev times else RVal.num (pyRound 0 3)) = _
    rw [if_pos h]
  · intro h
    show some (if 2 ≤ times.length then RVal.round3pstdev times else RVal.num (pyRound 0 3)) = _
    rw [if_neg (by omega), pyRound_zero]
  · rintro rfl
    refine ⟨rfl, rfl, rfl, rfl, ?_⟩
    show some (if 2 ≤ ([] : List ℚ).length then RVal.round3pstdev [] else RVal.num (pyRound 0 3)) = _
    rw [if_neg (by simp), pyRound_zero]

/-- Witness for C2 at concrete inputs: two samples give the symbolic rounded
pstdev; zero samples give an empty median cell. -/
theorem C2_jitter_amended_witness :
    (ping_stats [3, 5] 10).jitter_ms = some (RVal.round3pstdev [3, 5]) ∧
    (ping_stats [] 10).p50_ms = none :=
  ⟨(C2_jitter_amended [3, 5] 10).1 (by norm_num),
   ((C2_jitter_amended [] 10).2.2 rfl).2.1⟩

/-- C3 counterexample: a zero-exit speedtest whose JSON parses but lacks
`download.bandwidth` (while `upload.bandwidth` and `ping.latency` are
present) yields a result with `down_mbps` empty and the other subfields
populated — refuting "never returns a result in which only some of the
bandwidth subfields are populated". -/
theorem C3_counterexample_partial_subfields :
    run_ookla_speedtest ⟨true, .ok ⟨0, "\x7b\x7d"⟩, some ⟨none, some 1000000, some 5⟩⟩ =
      .ok (some { down_mbps := none, up_mbps := some 8, ping_ms := some 5,
                  raw_json := "\x7b\x7d".data }) ∧
    (SpeedtestResult.mk none (some 8) (some 5) "\x7b\x7d".data).down_mbps = none ∧
    (SpeedtestResult.mk none (some 8) (some 5) "\x7b\x7d".data).up_mbps = some 8 := by
  refine ⟨?_, rfl, rfl⟩
  rw [run_ookla_speedtest]
  norm_num [bw_to_mbps, pyRound, pyRoundInt]
  rfl

/-- C3 (amended): the adapter returns "no result" whenever the tool is absent,
the process exits nonzero, or the parse block raises; when the payload
parses, it returns a result whose subfields are populated exactly for the
payload fields present — so a payload missing some fields yields a partially
populated result. (A timeout instead raises out of the adapter, see C1.) -/
theorem C3_speedtest_amended (env : SpeedtestEnv) :
    (env.toolAvailable = false → run_ookla_speedtest env = .ok none) ∧
    (∀ r : RunResult, env.outcome = .ok r → r.returncode ≠ 0 →
        run_ookla_speedtest env = .ok none) ∧
    (∀ r : RunResult, env.outcome = .ok r → env.parsed = none →
        run_ookla_speedtest env = .ok none) ∧
    (∀ (r : RunResult) (p : ParsedPayload), env.toolAvailable = true →
        env.outcome = .ok r → r.returncode = 0 → env.parsed = some p →
        run_ookla_speedtest env = .ok (some
          { down_mbps := p.down_b.map (fun x => pyRound (bw_to_mbps x) 2)
            up_mbps := p.up_b.map (fun x => pyRound (bw_to_mbps x) 2)
            ping_ms := p.ping_ms.map (fun x => pyRound x 2)
            raw_json := pyStrip r.stdout.data })) := by
  rcases env with ⟨avail, outc, parsed⟩
  refine ⟨?_, ?_, ?_, ?_⟩
  · intro h
    simp only at h
    subst h
    rfl
  · intro r hout hrc
    simp only at hout
    subst hout
    cases avail with
    | false => rfl
    | true => simp [run_ookla_speedtest, hrc]
  · intro r hout hp
    simp only at hout hp
    subst hout
    subst hp
    cases avail with
    | false => rfl
    | true =>
      rw [run_ookla_speedtest]
      simp only [Bool.not_true, Bool.false_eq_true, if_false]
      split <;> rfl
  · intro r p ha hout hrc hp
    simp only at ha hout hrc hp
    subst ha
    subst hout
    subst hp
    simp [run_ookla_speedtest, hrc]

/-- Witness for C3 at concrete inputs: absent tool and nonzero exit both give
"no result". -/
theorem C3_speedtest_amended_witness :
    run_ookla_speedtest ⟨false, .ok ⟨0, ""⟩, none⟩ = .ok none ∧
    run_ookla_speedtest ⟨true, .ok ⟨1, ""⟩, none⟩ = .ok none :=
  ⟨(C3_speedtest_amended _).1 rfl,
   (C3_speedtest_amended _).2.1 ⟨1, ""⟩ rfl (by norm_num)⟩

/-- C4 counterexample: stdout with more `time=` lines than the requested
count (count = 1, two matching lines) yields `received = 2 > sent = 1` and
`loss% = −100 < 0`, refuting the invariant for arbitrary external tool
output. -/
theorem C4_counterexample_received_gt_sent :
    ping_target 1 (.ok ⟨0, "time=1 ms\ntime=1 ms"⟩) = .ok (ping_stats [1, 1] 1) ∧
    (ping_stats [1, 1] 1).received = 2 ∧
    (ping_stats [1, 1] 1).sent = 1 ∧
    (ping_stats [1, 1] 1).loss_pct = -100 := by
  refine ⟨?_, rfl, rfl, ?_⟩
  · have hsplit : splitlines ("time=1 ms\ntime=1 ms".data) =
        ["time=1 ms".data, "time=1 ms".data] := by
      simp [splitlines, splitlinesGo, isLineBreakChar]
    have hparse : parse_ping_times_ms ("time=1 ms\ntime=1 ms".data) = .ok [1, 1] := by
      rw [parse_ping_times_ms, hsplit]
      rfl
    simp [ping_target, hparse]
  · show pyRound (if (1:ℕ) ≠ 0 then
        100 * ((1:ℕ) - (([1,1] : List ℚ).length : ℚ)) / ((1:ℕ) : ℚ) else 0) 2 = -100
    norm_num [pyRound, pyRoundInt]

/-- C4 (amended): `received` is the number of matching lines in the tool's
output and `loss% = 100·(sent − received)/sent` (0 when `sent = 0`), rounded;
`loss% ≤ 100` always; and whenever the output holds at most `sent` matching
lines — as every genuine ping output does — `received ≤ sent` and
`0 ≤ loss% ≤ 100`. -/
theorem C4_loss_invariant_amended (times : List ℚ) (count : ℕ) :
    (ping_stats times count).sent = count ∧
    (ping_stats times count).received = times.length ∧
    (ping_stats times count).loss_pct ≤ 100 ∧
    (count = 0 → (ping_stats times count).loss_pct = 0) ∧
    (times.length ≤ count →
      (ping_stats times count).received ≤ (ping_stats times count).sent ∧
      0 ≤ (ping_stats times count).loss_pct) := by
  have hloss : (ping_stats times count).loss_pct =
      pyRound (if count ≠ 0 then
        100 * ((count : ℚ) - (times.length : ℚ)) / (count : ℚ) else 0) 2 := rfl
  refine ⟨rfl, rfl, ?_, ?_, ?_⟩
  · rw [hloss]
    by_cases hc : count = 0
    · rw [if_neg (by simp [hc])]
      rw [pyRound_zero]
      norm_num
    · rw [if_pos hc]
      have hc0 : (0:ℚ) < (count:ℚ) := by exact_mod_cast Nat.pos_of_ne_zero hc
      have htl : (0:ℚ) ≤ (times.length : ℚ) := by positivity
      have hb := pyRound_le_of_le
        (100 * ((count : ℚ) - (times.length : ℚ)) / (count : ℚ)) 2 10000 ?_
      · calc pyRound (100 * ((count : ℚ) - (times.length : ℚ)) / (count : ℚ)) 2
            ≤ ((10000:ℤ):ℚ) / 10 ^ 2 := hb
          _ = 100 := by norm_num
      · have hL : 100 * ((count : ℚ) - (times.length : ℚ)) / (count : ℚ) ≤ 100 := by
          rw [div_le_iff₀ hc0]
          nlinarith
        nlinarith
  · intro h0
    rw [hloss, if_neg (by simp [h0]), pyRound_zero]
  · intro hle
    refine ⟨hle, ?_⟩
    rw [hloss]
    by_cases hc : count = 0
    · rw [if_neg (by simp [hc]), pyRound_zero]
    · rw [if_pos hc]
      apply pyRound_nonneg
      have hc0 : (0:ℚ) < (count:ℚ) := by exact_mod_cast Nat.pos_of_ne_zero hc
      have hcast : (times.length : ℚ) ≤ (count : ℚ) := by exact_mod_cast hle
      apply div_nonneg ?_ (le_of_lt hc0)
      nlinarith

/-- Witness for C4 at concrete inputs: one sample out of ten requested gives
`received ≤ sent` and nonnegative loss; a zero-count probe gives zero loss. -/
theorem C4_loss_invariant_amended_witness :
    (ping_stats [1] 10).received ≤ (ping_stats [1] 10).sent ∧
    0 ≤ (ping_stats [1] 10).loss_pct ∧
    (ping_stats [] 0).loss_pct = 0 :=
  ⟨((C4_loss_invariant_amended [1] 10).2.2.2.2 (by norm_num)).1,
   ((C4_loss_invariant_amended [1] 10).2.2.2.2 (by norm_num)).2,
   (C4_loss_invariant_amended [] 0).2.2.2.1 rfl⟩
